import Mathlib

/-!
# getawslog: profile resolution and the log pagination loop

A shallow embedding of `cmd/getawslog/main.go`.

* Go strings are Lean `String`s.  `len(s)` is the byte length, `s[0]` the first
  byte and `s[1:]` the string without its first byte.  The only byte the source
  inspects is `'~'` (ASCII), so on UTF-8 text the first byte is `'~'` exactly
  when the first character is, and dropping that byte drops that character.
* The package-level variable `env` is passed explicitly.
* Library code the program calls but does not contain (`filepath.Join`,
  `ini.Load` / `GetSection` / `Key(..).String()`, the CloudWatch Logs client,
  the `io.Writer`, `time.Unix(..).Format(time.RFC3339)`) is taken as a parameter.
* A Go `(T, error)` pair is a Lean pair whose second component is an
  `Option`: `none` is the `nil` error.
-/

namespace Getawslog

/-! ## Constants and records (main.go 23-66) -/

def credPath : String := ".aws/credentials"
def confPath : String := ".aws/config"

def iniRoleARN : String := "role_arn"
def iniSrcProfile : String := "source_profile"
def iniRegion : String := "region"

/-- The settings record `environments`.  `StartTime` and `EndTime` are kept as
Unix seconds; no function of the core reads them. -/
structure environments where
  AWSSharedCredentialsFile : String := ""
  AWSConfigFile : String := ""
  AWSDefaultProfile : String := ""
  AWSProfile : String := ""
  AWSDefaultRegion : String := ""
  Home : String := ""
  PrintTime : Bool := false
  StartTime : Int := 0
  EndTime : Int := 0
  LogStream : String := ""
  LogGroup : String := ""
  deriving DecidableEq, Repr

structure profileConfig where
  RoleARN : String := ""
  SrcProfile : String := ""
  Region : String := ""
  deriving DecidableEq, Repr

/-- Go's builtin `len` on a string: the number of bytes. -/
def len (s : String) : Nat := s.utf8ByteSize

/-! ## getProfileEnv (main.go 128-137) -/

def getProfileEnv (env : environments) : String :=
  if env.AWSDefaultProfile ≠ "" then
    env.AWSDefaultProfile
  else
    let profile := env.AWSProfile
    let profile := if len profile ≤ 0 then "default" else profile
    profile

/-! ## awsFilePath (main.go 150-162) -/

/-- The function `awsFilePath`; `Join` stands for `filepath.Join` applied to two
elements. -/
def awsFilePath (Join : String → String → String)
    (filePath defaultPath home : String) : String :=
  if filePath ≠ "" then
    if filePath.get 0 = '~' then
      Join home (filePath.drop 1)
    else
      filePath
  else if home = "" then
    ""
  else
    Join home defaultPath

/-- The path resolution as the specification words it (section 4.1, step 2):
if an explicit override path is given, then if it begins with the
home-directory sigil the remainder is joined onto the home directory, otherwise
it is used verbatim; else, if a home directory is known, the default relative
path is joined onto it; otherwise the path is empty. -/
def resolveFilePath (Join : String → String → String)
    (explicitPathOverride defaultRelativePath homeDir : String) : String :=
  match explicitPathOverride.data with
  | '~' :: remainder => Join homeDir ⟨remainder⟩
  | _ :: _ => explicitPathOverride
  | [] => if homeDir ≠ "" then Join homeDir defaultRelativePath else ""

/-! ## getProfile and getProfileConfig (main.go 163-196) -/

/-- The part of `github.com/go-ini/ini` the program uses.  `File` is a loaded
file and `Section` one of its sections; an error is its message.
`Load path` is `ini.Load(path)` with the contents of the file system fixed,
`GetSection f name` is `f.GetSection(name)` and `KeyString sec k` is
`sec.Key(k).String()`, which is the empty string for a key that is absent. -/
structure IniLib (File Section : Type) where
  Load : String → Except String File
  GetSection : File → String → Except String Section
  KeyString : Section → String → String

section Profile

variable {File Section : Type}

/-- The function `getProfile`.  Returns the pair `(res, err)`. -/
def getProfile (Join : String → String → String) (lib : IniLib File Section)
    (env : environments) (profile configFileName : String) :
    profileConfig × Option String :=
  let res : profileConfig := {}
  let cnfPath := awsFilePath Join env.AWSConfigFile configFileName env.Home
  match lib.Load cnfPath with
  | .error err => (res, some ("failed to load shared credentials file. err:" ++ err))
  | .ok config =>
    let found : Except String Section :=
      match lib.GetSection config profile with
      | .ok sec => .ok sec
      | .error _ =>
        match lib.GetSection config ("profile " ++ profile) with
        | .ok sec => .ok sec
        | .error err => .error ("not found ini section err:" ++ err)
    match found with
    | .error msg => (res, some msg)
    | .ok sec =>
      let res := { res with RoleARN := lib.KeyString sec iniRoleARN }
      let res := { res with SrcProfile := lib.KeyString sec iniSrcProfile }
      let res := { res with Region := lib.KeyString sec iniRegion }
      let res := if len env.AWSDefaultRegion > 0 then
        { res with Region := env.AWSDefaultRegion } else res
      (res, none)

/-- The function `getProfileConfig`. -/
def getProfileConfig (Join : String → String → String) (lib : IniLib File Section)
    (env : environments) (profile : String) : profileConfig × Option String :=
  match getProfile Join lib env profile confPath with
  | (res, some err) => (res, some err)
  | (res, none) =>
    if len res.SrcProfile > 0 ∧ len res.RoleARN > 0 then
      (res, none)
    else
      getProfile Join lib env profile credPath

end Profile

/-! ## getLogs (main.go 198-221) -/

/-- The fields of `cloudwatchlogs.OutputLogEvent` the loop reads.  The SDK
delivers them behind pointers; a delivered event is taken to carry both, as in
the data model of the specification (Timestamp: integer seconds, Message:
string). -/
structure OutputLogEvent where
  Timestamp : Int
  Message : String
  deriving DecidableEq, Repr

/-- The fields of `cloudwatchlogs.GetLogEventsOutput` the loop reads.
`NextForwardToken` is a `*string`: the zero-valued response the loop starts
from has none. -/
structure GetLogEventsOutput where
  Events : List OutputLogEvent := []
  NextForwardToken : Option String := none
  deriving DecidableEq, Repr

/-- The fields of `cloudwatchlogs.GetLogEventsInput` the program sets. -/
structure GetLogEventsInput where
  LogGroupName : Option String := none
  LogStreamName : Option String := none
  NextToken : Option String := none
  deriving DecidableEq, Repr

/-- A `cloudwatchlogsiface.CloudWatchLogsAPI` as far as the loop uses it: a
state machine answering `GetLogEvents`.  A call either fails with an error or
delivers a response; the request it is handed is not modified by the call. -/
structure Client (σ ε : Type) where
  GetLogEvents : σ → GetLogEventsInput → σ × Except ε GetLogEventsOutput

/-- An `io.Writer` as used through `io.WriteString`: a state machine whose
call reports `nil` or an error. -/
structure Writer (ω ε : Type) where
  WriteString : ω → String → ω × Option ε

/-- One call the loop makes to a collaborator, with what the call returned. -/
inductive Call (ε : Type) where
  | fetch (input : GetLogEventsInput) (result : Except ε GetLogEventsOutput)
  | write (s : String) (err : Option ε)

/-- How a run of `getLogs` ends: it returns `nil` or an error, it faults on a
nil pointer dereference, or the bound on the number of fetches given to the
model is used up while the loop is still going. -/
inductive Outcome (ε : Type) where
  | returned (err : Option ε)
  | fault
  | running

/-- What a run does: how it ends, and the calls it made, in order. -/
structure Run (ε : Type) where
  outcome : Outcome ε
  calls : List (Call ε)

section Logs

variable {σ ω ε : Type}

/-- The inner loop of `getLogs` (main.go 210-218) over the events of one
page, from sink state `o`.  Gives the sink state reached, the write calls
made, and the error of a failed write. -/
def writeEvents (w : Writer ω ε) (format : Int → String) (conf : environments) :
    List OutputLogEvent → ω → ω × List (Call ε) × Option ε
  | [], o => (o, [], none)
  | event :: rest, o =>
    let t := if conf.PrintTime then format event.Timestamp ++ " " else ""
    match w.WriteString o (t ++ event.Message ++ "\n") with
    | (o', some err) => (o', [.write (t ++ event.Message ++ "\n") (some err)], some err)
    | (o', none) =>
      let (o'', calls, err) := writeEvents w format conf rest o'
      (o'', .write (t ++ event.Message ++ "\n") none :: calls, err)

/-- What the test at the head of the loop does (main.go 202). -/
inductive Head where
  | stop
  | fault
  | go
  deriving DecidableEq, Repr

/-- The test `input.NextToken != nil && *res.NextForwardToken == *input.NextToken`
(main.go 202): with a cursor in the request, the forward token of `res` is
dereferenced, which faults when `res` has none. -/
def loopHead (input : GetLogEventsInput) (res : GetLogEventsOutput) : Head :=
  match input.NextToken with
  | none => .go
  | some tok =>
    match res.NextForwardToken with
    | none => .fault
    | some fwd => if fwd = tok then .stop else .go

/-- The loop of `getLogs` from its head (main.go 201), with `input` and `res`
as they stand there, `s` the state of the service and `o` of the sink.
`format ts` is `time.Unix(ts, 0).Format(time.RFC3339)`.  The first argument
bounds the number of fetches: the run is cut off, as `running`, only where the
loop would make one more. -/
def getLogsLoop (client : Client σ ε) (w : Writer ω ε) (format : Int → String)
    (conf : environments) :
    Nat → GetLogEventsInput → GetLogEventsOutput → σ → ω → Run ε
  | 0, input, res, _, _ =>
    match loopHead input res with
    | .stop => ⟨.returned none, []⟩
    | .fault => ⟨.fault, []⟩
    | .go => ⟨.running, []⟩
  | fuel + 1, input, res, s, o =>
    match loopHead input res with
    | .stop => ⟨.returned none, []⟩
    | .fault => ⟨.fault, []⟩
    | .go =>
      let input := { input with NextToken := res.NextForwardToken }
      match client.GetLogEvents s input with
      | (_, .error err) => ⟨.returned (some err), [.fetch input (.error err)]⟩
      | (s', .ok res') =>
        match writeEvents w format conf res'.Events o with
        | (_, calls, some err) =>
          ⟨.returned (some err), .fetch input (.ok res') :: calls⟩
        | (o', calls, none) =>
          let r := getLogsLoop client w format conf fuel input res' s' o'
          ⟨r.outcome, .fetch input (.ok res') :: (calls ++ r.calls)⟩

/-- The function `getLogs`: the loop entered with the zero-valued response. -/
def getLogs (client : Client σ ε) (w : Writer ω ε) (format : Int → String)
    (fuel : Nat) (input : GetLogEventsInput) (conf : environments) (s : σ) (o : ω) :
    Run ε :=
  getLogsLoop client w format conf fuel input {} s o

/-! ## Reading a run -/

/-- The error of a call that failed. -/
def Call.failure : Call ε → Option ε
  | .fetch _ (.error err) => some err
  | .fetch _ (.ok _) => none
  | .write _ err => err

/-- The fetches among the calls, in order: each request with its result. -/
def fetches : List (Call ε) → List (GetLogEventsInput × Except ε GetLogEventsOutput)
  | [] => []
  | .fetch input result :: rest => (input, result) :: fetches rest
  | .write _ _ :: rest => fetches rest

/-- The pages the fetches delivered, in order. -/
def pages : List (Call ε) → List GetLogEventsOutput
  | [] => []
  | .fetch _ (.ok res) :: rest => res :: pages rest
  | .fetch _ (.error _) :: rest => pages rest
  | .write _ _ :: rest => pages rest

/-- The strings handed to the sink, in order. -/
def written : List (Call ε) → List String
  | [] => []
  | .fetch _ _ :: rest => written rest
  | .write s _ :: rest => s :: written rest

/-- The forward token a fetch returned is the token its request submitted:
the request carried a token, the fetch delivered a response, and the forward
token of the response is that same token. -/
def repeats (f : GetLogEventsInput × Except ε GetLogEventsOutput) : Bool :=
  match f.1.NextToken, f.2 with
  | some tok, .ok res => decide (res.NextForwardToken = some tok)
  | _, _ => false

/-- One output line: the timestamp and one space when `printTime` is set,
the message, a newline. -/
def logLine (format : Int → String) (printTime : Bool) (event : OutputLogEvent) : String :=
  (if printTime then format event.Timestamp ++ " " else "") ++ event.Message ++ "\n"

end Logs

/-! ## Collaborators for the worked examples -/

/-- A path join for the examples: an empty element is ignored, and the two are
put together with one separator, the leading separators of the second dropped.
On elements that are otherwise clean this is `filepath.Join`. -/
def joinPath (a b : String) : String :=
  if a = "" then b
  else if b = "" then a
  else a ++ "/" ++ ⟨b.data.dropWhile (fun c => c = '/')⟩

abbrev IniSection := List (String × String)
abbrev IniFile := List (String × IniSection)

/-- An INI library over files held in memory, with the messages of
`go-ini` for a missing section. -/
def memIni (files : List (String × IniFile)) : IniLib IniFile IniSection where
  Load := fun path =>
    match files.lookup path with
    | some f => .ok f
    | none => .error ("open " ++ path ++ ": no such file or directory")
  GetSection := fun f name =>
    match f.lookup name with
    | some sec => .ok sec
    | none => .error ("section '" ++ name ++ "' does not exist")
  KeyString := fun sec k => (sec.lookup k).getD ""

/-- The config file of the examples. -/
def sampleConfig : IniFile :=
  [ ("profile testprof",
      [ ("role_arn", "arn:aws:iam::123456789012:role/Admin"),
        ("source_profile", "srcprof"),
        ("region", "ap-northeast-1") ]),
    ("profile partial", [ ("region", "us-east-1") ]) ]

/-- The credentials file of the examples. -/
def sampleCredentials : IniFile :=
  [ ("deploy",
      [ ("role_arn", "arn:aws:iam::123456789011:role/a"),
        ("source_profile", "srcprof") ]),
    ("partial",
      [ ("role_arn", "arn:aws:iam::123456789011:role/b"),
        ("source_profile", "default") ]) ]

/-- The files of the examples: the two conventional ones under the home
directory `/home/u`, and one elsewhere. -/
def sampleFiles : List (String × IniFile) :=
  [ ("/home/u/.aws/config", sampleConfig),
    ("/home/u/.aws/credentials", sampleCredentials),
    ("/etc/aws.ini", [ ("ops", [ ("region", "eu-west-1") ]) ]) ]

def sampleEnv : environments := { Home := "/home/u" }

/-- The mock of main_test.go 149-164. -/
structure mockedCWL where
  resp : GetLogEventsOutput
  err : Option String

def mockedCWL.GetLogEvents (m : mockedCWL) (input : GetLogEventsInput) :
    Except String GetLogEventsOutput :=
  let resp := if input.NextToken ≠ none then { m.resp with Events := [] } else m.resp
  match m.err with
  | some err => .error err
  | none => .ok resp

def mockedCWL.client (m : mockedCWL) : Client Unit String where
  GetLogEvents := fun s input => (s, m.GetLogEvents input)

/-- The first response of `TestGetLogs` (main_test.go 179-191). -/
def testResp : GetLogEventsOutput :=
  { Events := [⟨1519556892, "sample message log........"⟩,
               ⟨1519556893, "sample message log2........"⟩],
    NextForwardToken := some "hogehoge" }

/-- A service that hands out the pages of a script one after the other and,
once they are used up, answers with no events and the token it was sent. -/
def scriptedClient : Client (List GetLogEventsOutput) String where
  GetLogEvents := fun s input =>
    match s with
    | [] => ([], .ok { Events := [], NextForwardToken := input.NextToken })
    | page :: rest => (rest, .ok page)

/-- A service that answers every request with the same response. -/
def resendingClient (resp : GetLogEventsOutput) : Client Unit String where
  GetLogEvents := fun s _ => (s, .ok resp)

/-- A `bytes.Buffer`: a write appends and does not fail. -/
def bytesBuffer : Writer String String where
  WriteString := fun b s => (b ++ s, none)

/-- A sink that takes as many writes as its state says and then fails. -/
def limitedWriter : Writer Nat String where
  WriteString := fun n _ =>
    match n with
    | 0 => (0, some "short write")
    | k + 1 => (k, none)

def digit (d : Nat) : Char := Char.ofNat (48 + d % 10)

def pad2 (n : Nat) : String := ⟨[digit (n / 10), digit n]⟩

def pad4 (n : Nat) : String := ⟨[digit (n / 1000), digit (n / 100), digit (n / 10), digit n]⟩

/-- The rendering `time.Unix(ts, 0).Format(time.RFC3339)` where the local zone
is UTC, for the timestamps of the years 1970 to 9999. -/
def rfc3339UTC (ts : Int) : String :=
  let n := ts.toNat
  let days := n / 86400
  let secs := n % 86400
  let z := days + 719468
  let era := z / 146097
  let doe := z % 146097
  let yoe := (doe - doe / 1460 + doe / 36524 - doe / 146096) / 365
  let doy := doe - (365 * yoe + yoe / 4 - yoe / 100)
  let mp := (5 * doy + 2) / 153
  let d := doy - (153 * mp + 2) / 5 + 1
  let m := if mp < 10 then mp + 3 else mp - 9
  let y := if m ≤ 2 then yoe + era * 400 + 1 else yoe + era * 400
  pad4 y ++ "-" ++ pad2 m ++ "-" ++ pad2 d ++ "T"
    ++ pad2 (secs / 3600) ++ ":" ++ pad2 (secs % 3600 / 60) ++ ":" ++ pad2 (secs % 60) ++ "Z"

/-! ## String facts -/

theorem len_eq_zero_iff (s : String) : len s = 0 ↔ s = "" := by
  rcases s with ⟨l⟩
  cases l with
  | nil => exact ⟨fun _ => rfl, fun _ => rfl⟩
  | cons c cs =>
    constructor
    · intro h
      have hpos := Char.utf8Size_pos c
      simp only [len, String.utf8ByteSize, String.utf8ByteSize.go] at h
      omega
    · intro h
      exact absurd (congrArg String.data h) (by simp)

theorem len_empty : len "" = 0 := rfl

theorem len_pos_iff (s : String) : len s > 0 ↔ s ≠ "" := by
  rw [← not_iff_not]
  simp [len_eq_zero_iff]

theorem mk_cons_ne_empty (c : Char) (cs : List Char) : (String.mk (c :: cs)) ≠ "" := by
  intro h
  exact absurd (congrArg String.data h) (by simp)

/-! ## awsFilePath -/

theorem awsFilePath_cons (Join : String → String → String) (c : Char) (cs : List Char)
    (defaultPath home : String) :
    awsFilePath Join ⟨c :: cs⟩ defaultPath home =
      if c = '~' then Join home ⟨cs⟩ else ⟨c :: cs⟩ := by
  have hget : (String.mk (c :: cs)).get 0 = c := rfl
  have hdrop : (String.mk (c :: cs)).drop 1 = ⟨cs⟩ := by simp [String.drop_eq]
  simp only [awsFilePath, if_pos (mk_cons_ne_empty c cs), hget, hdrop]

theorem awsFilePath_empty (Join : String → String → String) (defaultPath home : String) :
    awsFilePath Join "" defaultPath home =
      if home = "" then "" else Join home defaultPath := by
  simp [awsFilePath]

/-- With an override path given, the default relative path plays no part. -/
theorem awsFilePath_override (Join : String → String → String)
    (filePath home : String) (h : filePath ≠ "") (d₁ d₂ : String) :
    awsFilePath Join filePath d₁ home = awsFilePath Join filePath d₂ home := by
  simp only [awsFilePath, if_pos h]

/-- C6: `awsFilePath` is the `resolveFilePath` of the specification on all
inputs.  A path beginning with `~` gives the join of the home directory and the
remainder, whatever the home directory is; any other non-empty path is returned
verbatim; the empty path gives the join of the home directory and the default
path when the home directory is non-empty and the empty string otherwise. -/
theorem awsFilePath_eq_resolveFilePath (Join : String → String → String)
    (filePath defaultPath home : String) :
    awsFilePath Join filePath defaultPath home
        = resolveFilePath Join filePath defaultPath home
      ∧ (∀ rest : List Char, filePath = ⟨'~' :: rest⟩ →
          awsFilePath Join filePath defaultPath home = Join home ⟨rest⟩)
      ∧ (∀ (c : Char) (rest : List Char), filePath = ⟨c :: rest⟩ → c ≠ '~' →
          awsFilePath Join filePath defaultPath home = filePath)
      ∧ (filePath = "" → home ≠ "" →
          awsFilePath Join filePath defaultPath home = Join home defaultPath)
      ∧ (filePath = "" → home = "" →
          awsFilePath Join filePath defaultPath home = "") := by
  refine ⟨?_, ?_, ?_, ?_, ?_⟩
  · rcases filePath with ⟨l⟩
    cases l with
    | nil =>
      have h0 : (String.mk []) = "" := rfl
      rw [h0, awsFilePath_empty]
      by_cases hh : home = "" <;> simp [resolveFilePath, hh]
    | cons c cs =>
      rw [awsFilePath_cons]
      by_cases hc : c = '~'
      · subst hc
        simp [resolveFilePath]
      · simp [resolveFilePath, hc]
  · intro rest h
    subst h
    rw [awsFilePath_cons]
    simp
  · intro c rest h hc
    subst h
    rw [awsFilePath_cons, if_neg hc]
  · intro h hh
    subst h
    rw [awsFilePath_empty, if_neg hh]
  · intro h hh
    subst h
    rw [awsFilePath_empty, if_pos hh]

/-- C6 at five paths: an override under the home sigil, with and without a
home directory; an override used verbatim; no override, with and without a
home directory. -/
theorem awsFilePath_eq_resolveFilePath_witness :
    awsFilePath joinPath "~/.aws/config" ".aws/config" "/home/u" = "/home/u/.aws/config"
      ∧ awsFilePath joinPath "~/.aws/config" ".aws/config" "" = "/.aws/config"
      ∧ awsFilePath joinPath "/etc/aws.ini" ".aws/config" "/home/u" = "/etc/aws.ini"
      ∧ awsFilePath joinPath "" ".aws/config" "/home/u" = "/home/u/.aws/config"
      ∧ awsFilePath joinPath "" ".aws/config" "" = "" :=
  ⟨(awsFilePath_eq_resolveFilePath joinPath "~/.aws/config" ".aws/config" "/home/u").1.trans
      (by decide),
   (awsFilePath_eq_resolveFilePath joinPath "~/.aws/config" ".aws/config" "").1.trans
      (by decide),
   (awsFilePath_eq_resolveFilePath joinPath "/etc/aws.ini" ".aws/config" "/home/u").1.trans
      (by decide),
   (awsFilePath_eq_resolveFilePath joinPath "" ".aws/config" "/home/u").2.2.2.1 rfl
      (by decide) |>.trans (by decide),
   (awsFilePath_eq_resolveFilePath joinPath "" ".aws/config" "").2.2.2.2 rfl rfl⟩

/-! ## getProfileEnv -/

/-- C7: `getProfileEnv` returns `AWSDefaultProfile` when that is non-empty,
otherwise `AWSProfile` when that is non-empty, otherwise `"default"`; the
result is never the empty string. -/
theorem getProfileEnv_precedence (env : environments) :
    getProfileEnv env =
        (if env.AWSDefaultProfile ≠ "" then env.AWSDefaultProfile
         else if env.AWSProfile ≠ "" then env.AWSProfile
         else "default")
      ∧ getProfileEnv env ≠ "" := by
  have hd : ("default" : String) ≠ "" := by decide
  have hlen : (len env.AWSProfile ≤ 0) ↔ env.AWSProfile = "" := by
    rw [Nat.le_zero, len_eq_zero_iff]
  unfold getProfileEnv
  by_cases h1 : env.AWSDefaultProfile = ""
  · by_cases h2 : env.AWSProfile = ""
    · rw [if_neg (not_not.mpr h1), if_neg (not_not.mpr h2)]
      simp only [if_neg (not_not.mpr h1), if_pos (hlen.mpr h2)]
      exact ⟨trivial, hd⟩
    · have h3 : ¬ len env.AWSProfile ≤ 0 := fun h => h2 (hlen.mp h)
      simp [h1, h2, h3]
  · simp [h1]

/-- C7 at the two cases of `TestGetProfileEnv` and at empty settings. -/
theorem getProfileEnv_precedence_witness :
    getProfileEnv { AWSDefaultProfile := "def", AWSProfile := "prof" } = "def"
      ∧ getProfileEnv { AWSDefaultProfile := "", AWSProfile := "prof" } = "prof"
      ∧ getProfileEnv {} = "default" :=
  ⟨(getProfileEnv_precedence { AWSDefaultProfile := "def", AWSProfile := "prof" }).1.trans
      (by decide),
   (getProfileEnv_precedence { AWSDefaultProfile := "", AWSProfile := "prof" }).1.trans
      (by decide),
   (getProfileEnv_precedence {}).1.trans (by decide)⟩

/-! ## getProfile and getProfileConfig -/

section ProfileFacts

variable {File Section : Type}

theorem getProfile_load_error (Join : String → String → String) (lib : IniLib File Section)
    (env : environments) (profile configFileName err : String)
    (h : lib.Load (awsFilePath Join env.AWSConfigFile configFileName env.Home) = .error err) :
    getProfile Join lib env profile configFileName
      = ({}, some ("failed to load shared credentials file. err:" ++ err)) := by
  simp only [getProfile, h]

/-- The lookup depends on the file name only through the path it resolves to. -/
theorem getProfile_congr_path (Join : String → String → String) (lib : IniLib File Section)
    (env : environments) (profile d₁ d₂ : String)
    (h : awsFilePath Join env.AWSConfigFile d₁ env.Home
          = awsFilePath Join env.AWSConfigFile d₂ env.Home) :
    getProfile Join lib env profile d₁ = getProfile Join lib env profile d₂ := by
  simp only [getProfile, h]

/-- C8: with the INI file loaded, `getProfile` reads `role_arn`,
`source_profile` and `region` from the section named exactly `P` when that
section exists, otherwise from the section `profile P` (the region giving way to
a non-empty `AWSDefaultRegion`); when neither exists it returns the error
`not found ini section err:` followed by the library's error for the section
`profile P`, with a `profileConfig` whose three fields are empty. -/
theorem getProfile_section_lookup (Join : String → String → String)
    (lib : IniLib File Section) (env : environments) (P configFileName : String)
    (f : File)
    (hload : lib.Load (awsFilePath Join env.AWSConfigFile configFileName env.Home) = .ok f) :
    (∀ sec, lib.GetSection f P = .ok sec →
        getProfile Join lib env P configFileName =
          ({ RoleARN := lib.KeyString sec "role_arn",
             SrcProfile := lib.KeyString sec "source_profile",
             Region := if env.AWSDefaultRegion ≠ "" then env.AWSDefaultRegion
                       else lib.KeyString sec "region" }, none))
      ∧ (∀ e sec, lib.GetSection f P = .error e →
          lib.GetSection f ("profile " ++ P) = .ok sec →
          getProfile Join lib env P configFileName =
            ({ RoleARN := lib.KeyString sec "role_arn",
               SrcProfile := lib.KeyString sec "source_profile",
               Region := if env.AWSDefaultRegion ≠ "" then env.AWSDefaultRegion
                         else lib.KeyString sec "region" }, none))
      ∧ (∀ e e', lib.GetSection f P = .error e →
          lib.GetSection f ("profile " ++ P) = .error e' →
          getProfile Join lib env P configFileName =
            ({ RoleARN := "", SrcProfile := "", Region := "" },
              some ("not found ini section err:" ++ e'))) := by
  refine ⟨?_, ?_, ?_⟩
  · intro sec hs
    by_cases hr : env.AWSDefaultRegion = ""
    · simp [getProfile, hload, hs, hr, len_empty, iniRoleARN, iniSrcProfile, iniRegion]
    · have hl : len env.AWSDefaultRegion > 0 := (len_pos_iff _).mpr hr
      simp [getProfile, hload, hs, hl, hr, iniRoleARN, iniSrcProfile]
  · intro e sec he hs
    by_cases hr : env.AWSDefaultRegion = ""
    · simp [getProfile, hload, he, hs, hr, len_empty, iniRoleARN, iniSrcProfile, iniRegion]
    · have hl : len env.AWSDefaultRegion > 0 := (len_pos_iff _).mpr hr
      simp [getProfile, hload, he, hs, hl, hr, iniRoleARN, iniSrcProfile]
  · intro e e' he he'
    simp [getProfile, hload, he, he']

/-- C8 on the sample files: the profile `none` of the specification's scenario
B, which has no section; `testprof`, found under `profile testprof`; and
`deploy`, found under its bare name in the credentials file. -/
theorem getProfile_section_lookup_witness :
    (memIni sampleFiles).Load
        (awsFilePath joinPath sampleEnv.AWSConfigFile ".aws/config" sampleEnv.Home)
        = .ok sampleConfig
      ∧ getProfile joinPath (memIni sampleFiles) sampleEnv "none" ".aws/config"
        = ({ RoleARN := "", SrcProfile := "", Region := "" },
            some "not found ini section err:section 'profile none' does not exist")
      ∧ getProfile joinPath (memIni sampleFiles) sampleEnv "testprof" ".aws/config"
        = ({ RoleARN := "arn:aws:iam::123456789012:role/Admin",
             SrcProfile := "srcprof", Region := "ap-northeast-1" }, none)
      ∧ getProfile joinPath (memIni sampleFiles) sampleEnv "deploy" ".aws/credentials"
        = ({ RoleARN := "arn:aws:iam::123456789011:role/a",
             SrcProfile := "srcprof", Region := "" }, none) :=
  ⟨rfl,
   (getProfile_section_lookup joinPath (memIni sampleFiles) sampleEnv "none"
      ".aws/config" sampleConfig rfl).2.2
      "section 'none' does not exist" "section 'profile none' does not exist" rfl rfl,
   (getProfile_section_lookup joinPath (memIni sampleFiles) sampleEnv "testprof"
      ".aws/config" sampleConfig rfl).2.1
      "section 'testprof' does not exist"
      [ ("role_arn", "arn:aws:iam::123456789012:role/Admin"),
        ("source_profile", "srcprof"), ("region", "ap-northeast-1") ] rfl rfl,
   (getProfile_section_lookup joinPath (memIni sampleFiles) sampleEnv "deploy"
      ".aws/credentials" sampleCredentials rfl).1
      [ ("role_arn", "arn:aws:iam::123456789011:role/a"),
        ("source_profile", "srcprof") ] rfl⟩

/-- C10: with a non-empty `AWSConfigFile`, both lookups of `getProfileConfig`
resolve to one and the same path, so no second file is read, and
`getProfileConfig P` is `getProfile P ".aws/config"` for every profile `P`. -/
theorem getProfileConfig_config_override (Join : String → String → String)
    (lib : IniLib File Section) (env : environments) (h : env.AWSConfigFile ≠ "") :
    awsFilePath Join env.AWSConfigFile ".aws/config" env.Home
        = awsFilePath Join env.AWSConfigFile ".aws/credentials" env.Home
      ∧ ∀ P, getProfileConfig Join lib env P = getProfile Join lib env P ".aws/config" := by
  have hpath := awsFilePath_override Join env.AWSConfigFile env.Home h
    ".aws/config" ".aws/credentials"
  refine ⟨hpath, fun P => ?_⟩
  have hsame : getProfile Join lib env P credPath = getProfile Join lib env P confPath :=
    getProfile_congr_path Join lib env P credPath confPath hpath.symm
  unfold getProfileConfig
  rw [hsame]
  change _ = getProfile Join lib env P confPath
  generalize getProfile Join lib env P confPath = r
  rcases r with ⟨res, _ | err⟩
  · simp only
    split <;> rfl
  · rfl

/-- C10 with the override `/etc/aws.ini`: the profile `ops` is read from that
file by both lookups. -/
theorem getProfileConfig_config_override_witness :
    ({ sampleEnv with AWSConfigFile := "/etc/aws.ini" } : environments).AWSConfigFile ≠ ""
      ∧ awsFilePath joinPath "/etc/aws.ini" ".aws/credentials" "/home/u" = "/etc/aws.ini"
      ∧ getProfile joinPath (memIni sampleFiles)
          { sampleEnv with AWSConfigFile := "/etc/aws.ini" } "ops" ".aws/config"
          = ({ RoleARN := "", SrcProfile := "", Region := "eu-west-1" }, none)
      ∧ getProfileConfig joinPath (memIni sampleFiles)
          { sampleEnv with AWSConfigFile := "/etc/aws.ini" } "ops"
          = getProfile joinPath (memIni sampleFiles)
              { sampleEnv with AWSConfigFile := "/etc/aws.ini" } "ops" ".aws/config" :=
  ⟨by decide, rfl, rfl,
   (getProfileConfig_config_override joinPath (memIni sampleFiles)
      { sampleEnv with AWSConfigFile := "/etc/aws.ini" } (by decide)).2 "ops"⟩

/-- C5, as the code has it: when the lookup against the config file returns
without error and does not yield both a non-empty role ARN and a non-empty
source profile, `getProfileConfig` repeats the lookup with the default path
`.aws/credentials` and returns the result of that second lookup; when the
lookup against the config file returns an error, `getProfileConfig` returns
that error and the first lookup's `profileConfig`. -/
theorem getProfileConfig_fallback (Join : String → String → String)
    (lib : IniLib File Section) (env : environments) (P : String) :
    (∀ res, getProfile Join lib env P ".aws/config" = (res, none) →
        ¬ (res.RoleARN ≠ "" ∧ res.SrcProfile ≠ "") →
        getProfileConfig Join lib env P = getProfile Join lib env P ".aws/credentials")
      ∧ (∀ res err, getProfile Join lib env P ".aws/config" = (res, some err) →
        getProfileConfig Join lib env P = (res, some err)) := by
  constructor
  · intro res hres hnot
    have hcond : ¬ (len res.SrcProfile > 0 ∧ len res.RoleARN > 0) := by
      rw [len_pos_iff, len_pos_iff]
      exact fun hc => hnot ⟨hc.2, hc.1⟩
    have hres' : getProfile Join lib env P confPath = (res, none) := hres
    simp only [getProfileConfig, hres', if_neg hcond]
    rfl
  · intro res err hres
    have hres' : getProfile Join lib env P confPath = (res, some err) := hres
    simp only [getProfileConfig, hres']

/-- C5 as amended, on the sample files: `partial` has a section without role
ARN in the config file, so the credentials file answers; `deploy` has no
section in the config file, so the error of that lookup is the result. -/
theorem getProfileConfig_fallback_witness :
    getProfile joinPath (memIni sampleFiles) sampleEnv "partial" ".aws/config"
        = ({ RoleARN := "", SrcProfile := "", Region := "us-east-1" }, none)
      ∧ getProfileConfig joinPath (memIni sampleFiles) sampleEnv "partial"
        = getProfile joinPath (memIni sampleFiles) sampleEnv "partial" ".aws/credentials"
      ∧ getProfileConfig joinPath (memIni sampleFiles) sampleEnv "partial"
        = ({ RoleARN := "arn:aws:iam::123456789011:role/b",
             SrcProfile := "default", Region := "" }, none) :=
  ⟨rfl,
   (getProfileConfig_fallback joinPath (memIni sampleFiles) sampleEnv "partial").1
      { RoleARN := "", SrcProfile := "", Region := "us-east-1" } rfl (by decide),
   rfl⟩

/-- C5 fails as stated: the lookup of `deploy` against the config file does not
yield a role ARN and a source profile (it fails, the file has no such section),
the same lookup against the credentials file yields both, and
`getProfileConfig` returns the error of the first lookup, not the result of the
second. -/
theorem getProfileConfig_error_not_retried :
    getProfile joinPath (memIni sampleFiles) sampleEnv "deploy" ".aws/config"
        = ({ RoleARN := "", SrcProfile := "", Region := "" },
            some "not found ini section err:section 'profile deploy' does not exist")
      ∧ getProfile joinPath (memIni sampleFiles) sampleEnv "deploy" ".aws/credentials"
        = ({ RoleARN := "arn:aws:iam::123456789011:role/a",
             SrcProfile := "srcprof", Region := "" }, none)
      ∧ getProfileConfig joinPath (memIni sampleFiles) sampleEnv "deploy"
        = ({ RoleARN := "", SrcProfile := "", Region := "" },
            some "not found ini section err:section 'profile deploy' does not exist")
      ∧ getProfileConfig joinPath (memIni sampleFiles) sampleEnv "deploy"
        ≠ getProfile joinPath (memIni sampleFiles) sampleEnv "deploy" ".aws/credentials" :=
  ⟨rfl, rfl, rfl, by decide⟩

end ProfileFacts

/-! ## getLogs: the calls of a run -/

section LogFacts

variable {σ ω ε : Type}

theorem fetches_append (a b : List (Call ε)) : fetches (a ++ b) = fetches a ++ fetches b := by
  induction a with
  | nil => rfl
  | cons c a ih => cases c <;> simp [fetches, ih]

theorem pages_append (a b : List (Call ε)) : pages (a ++ b) = pages a ++ pages b := by
  induction a with
  | nil => rfl
  | cons c a ih =>
    cases c with
    | fetch input result => cases result <;> simp [pages, ih]
    | write str err => simp [pages, ih]

theorem written_append (a b : List (Call ε)) : written (a ++ b) = written a ++ written b := by
  induction a with
  | nil => rfl
  | cons c a ih => cases c <;> simp [written, ih]

theorem fetches_writes (f : OutputLogEvent → String) (evs : List OutputLogEvent) :
    fetches (evs.map (fun e => (Call.write (f e) none : Call ε))) = [] := by
  induction evs with
  | nil => rfl
  | cons e evs ih => simpa [fetches] using ih

theorem pages_writes (f : OutputLogEvent → String) (evs : List OutputLogEvent) :
    pages (evs.map (fun e => (Call.write (f e) none : Call ε))) = [] := by
  induction evs with
  | nil => rfl
  | cons e evs ih => simpa [pages] using ih

theorem written_writes (f : OutputLogEvent → String) (evs : List OutputLogEvent) :
    written (evs.map (fun e => (Call.write (f e) none : Call ε))) = evs.map f := by
  induction evs with
  | nil => rfl
  | cons e evs ih => simpa [written] using ih

/-! ### The inner loop -/

theorem writeEvents_cons_ok (w : Writer ω ε) (format : Int → String) (conf : environments)
    (event : OutputLogEvent) (rest : List OutputLogEvent) (o o' : ω)
    (h : w.WriteString o (logLine format conf.PrintTime event) = (o', none)) :
    writeEvents w format conf (event :: rest) o =
      ((writeEvents w format conf rest o').1,
        Call.write (logLine format conf.PrintTime event) none
          :: (writeEvents w format conf rest o').2.1,
        (writeEvents w format conf rest o').2.2) := by
  unfold logLine at h
  simp only [writeEvents, h]
  rfl

theorem writeEvents_cons_err (w : Writer ω ε) (format : Int → String) (conf : environments)
    (event : OutputLogEvent) (rest : List OutputLogEvent) (o o' : ω) (err : ε)
    (h : w.WriteString o (logLine format conf.PrintTime event) = (o', some err)) :
    writeEvents w format conf (event :: rest) o =
      (o', [Call.write (logLine format conf.PrintTime event) (some err)], some err) := by
  unfold logLine at h
  simp only [writeEvents, h]
  rfl

/-- A page whose writes all succeed is written line by line, in order. -/
theorem writeEvents_ok (w : Writer ω ε) (format : Int → String) (conf : environments) :
    ∀ (evs : List OutputLogEvent) (o : ω),
      (writeEvents w format conf evs o).2.2 = none →
      (writeEvents w format conf evs o).2.1
        = evs.map (fun e => Call.write (logLine format conf.PrintTime e) none) := by
  intro evs
  induction evs with
  | nil => intro o _; rfl
  | cons event rest ih =>
    intro o h
    rcases hw : w.WriteString o (logLine format conf.PrintTime event) with ⟨o', _ | err⟩
    · rw [writeEvents_cons_ok w format conf event rest o o' hw] at h ⊢
      simp only [List.map_cons]
      rw [ih o' h]
    · rw [writeEvents_cons_err w format conf event rest o o' err hw] at h
      cases h

/-- The write that fails is the last call of the inner loop, and its error is
the one the inner loop reports. -/
theorem writeEvents_failure_last (w : Writer ω ε) (format : Int → String)
    (conf : environments) :
    ∀ (evs : List OutputLogEvent) (o : ω) (pre : List (Call ε)) (c : Call ε)
      (post : List (Call ε)) (e : ε),
      (writeEvents w format conf evs o).2.1 = pre ++ c :: post → c.failure = some e →
      post = [] ∧ (writeEvents w format conf evs o).2.2 = some e := by
  intro evs
  induction evs with
  | nil =>
    intro o pre c post e h _
    simp [writeEvents] at h
  | cons event rest ih =>
    intro o pre c post e h hc
    rcases hw : w.WriteString o (logLine format conf.PrintTime event) with ⟨o', _ | err⟩
    · rw [writeEvents_cons_ok w format conf event rest o o' hw] at h ⊢
      cases pre with
      | nil =>
        simp only [List.nil_append, List.cons.injEq] at h
        rw [← h.1] at hc
        simp [Call.failure] at hc
      | cons x pre' =>
        simp only [List.cons_append, List.cons.injEq] at h
        exact ih o' pre' c post e h.2 hc
    · rw [writeEvents_cons_err w format conf event rest o o' err hw] at h ⊢
      cases pre with
      | nil =>
        simp only [List.nil_append, List.cons.injEq] at h
        rw [← h.1] at hc
        simp only [Call.failure] at hc
        exact ⟨h.2.symm, hc⟩
      | cons x pre' =>
        simp at h

/-- An error of the inner loop is the error of one of its calls. -/
theorem writeEvents_err_mem (w : Writer ω ε) (format : Int → String)
    (conf : environments) :
    ∀ (evs : List OutputLogEvent) (o : ω) (e : ε),
      (writeEvents w format conf evs o).2.2 = some e →
      ∃ c ∈ (writeEvents w format conf evs o).2.1, c.failure = some e := by
  intro evs
  induction evs with
  | nil => intro o e h; simp [writeEvents] at h
  | cons event rest ih =>
    intro o e h
    rcases hw : w.WriteString o (logLine format conf.PrintTime event) with ⟨o', _ | err⟩
    · rw [writeEvents_cons_ok w format conf event rest o o' hw] at h ⊢
      obtain ⟨c, hc, hf⟩ := ih o' e h
      exact ⟨c, List.mem_cons_of_mem _ hc, hf⟩
    · rw [writeEvents_cons_err w format conf event rest o o' err hw] at h ⊢
      simp only [Option.some.injEq] at h
      subst h
      exact ⟨_, List.mem_singleton.mpr rfl, rfl⟩

/-- Into a sink that does not fail, the inner loop does not fail. -/
theorem writeEvents_never_fails (w : Writer ω ε) (format : Int → String)
    (conf : environments) (hw : ∀ o str, (w.WriteString o str).2 = none) :
    ∀ (evs : List OutputLogEvent) (o : ω), (writeEvents w format conf evs o).2.2 = none := by
  intro evs
  induction evs with
  | nil => intro o; rfl
  | cons event rest ih =>
    intro o
    have h := hw o (logLine format conf.PrintTime event)
    rcases hws : w.WriteString o (logLine format conf.PrintTime event) with ⟨o', r⟩
    rw [hws] at h
    simp only at h
    subst h
    rw [writeEvents_cons_ok w format conf event rest o o' hws]
    exact ih o'

/-! ### The loop, branch by branch -/

theorem getLogsLoop_stop (client : Client σ ε) (w : Writer ω ε) (format : Int → String)
    (conf : environments) (fuel : Nat) (input : GetLogEventsInput)
    (res : GetLogEventsOutput) (s : σ) (o : ω) (h : loopHead input res = .stop) :
    getLogsLoop client w format conf fuel input res s o = ⟨.returned none, []⟩ := by
  cases fuel <;> simp only [getLogsLoop, h]

theorem getLogsLoop_fault (client : Client σ ε) (w : Writer ω ε) (format : Int → String)
    (conf : environments) (fuel : Nat) (input : GetLogEventsInput)
    (res : GetLogEventsOutput) (s : σ) (o : ω) (h : loopHead input res = .fault) :
    getLogsLoop client w format conf fuel input res s o = ⟨.fault, []⟩ := by
  cases fuel <;> simp only [getLogsLoop, h]

theorem getLogsLoop_cut (client : Client σ ε) (w : Writer ω ε) (format : Int → String)
    (conf : environments) (input : GetLogEventsInput)
    (res : GetLogEventsOutput) (s : σ) (o : ω) (h : loopHead input res = .go) :
    getLogsLoop client w format conf 0 input res s o = ⟨.running, []⟩ := by
  simp only [getLogsLoop, h]

theorem getLogsLoop_fetch_error (client : Client σ ε) (w : Writer ω ε)
    (format : Int → String) (conf : environments) (fuel : Nat) (input : GetLogEventsInput)
    (res : GetLogEventsOutput) (s s' : σ) (o : ω) (err : ε)
    (h : loopHead input res = .go)
    (hf : client.GetLogEvents s { input with NextToken := res.NextForwardToken }
            = (s', .error err)) :
    getLogsLoop client w format conf (fuel + 1) input res s o =
      ⟨.returned (some err),
        [.fetch { input with NextToken := res.NextForwardToken } (.error err)]⟩ := by
  simp only [getLogsLoop, h, hf]

theorem getLogsLoop_write_error (client : Client σ ε) (w : Writer ω ε)
    (format : Int → String) (conf : environments) (fuel : Nat) (input : GetLogEventsInput)
    (res res' : GetLogEventsOutput) (s s' : σ) (o : ω) (err : ε)
    (h : loopHead input res = .go)
    (hf : client.GetLogEvents s { input with NextToken := res.NextForwardToken }
            = (s', .ok res'))
    (hw : (writeEvents w format conf res'.Events o).2.2 = some err) :
    getLogsLoop client w format conf (fuel + 1) input res s o =
      ⟨.returned (some err),
        .fetch { input with NextToken := res.NextForwardToken } (.ok res')
          :: (writeEvents w format conf res'.Events o).2.1⟩ := by
  rcases hwe : writeEvents w format conf res'.Events o with ⟨o', calls, r⟩
  rw [hwe] at hw
  simp only at hw
  subst hw
  simp only [getLogsLoop, h, hf, hwe]

theorem getLogsLoop_step (client : Client σ ε) (w : Writer ω ε)
    (format : Int → String) (conf : environments) (fuel : Nat) (input : GetLogEventsInput)
    (res res' : GetLogEventsOutput) (s s' : σ) (o : ω)
    (h : loopHead input res = .go)
    (hf : client.GetLogEvents s { input with NextToken := res.NextForwardToken }
            = (s', .ok res'))
    (hw : (writeEvents w format conf res'.Events o).2.2 = none) :
    getLogsLoop client w format conf (fuel + 1) input res s o =
      ⟨(getLogsLoop client w format conf fuel
          { input with NextToken := res.NextForwardToken } res' s'
          (writeEvents w format conf res'.Events o).1).outcome,
        .fetch { input with NextToken := res.NextForwardToken } (.ok res')
          :: ((writeEvents w format conf res'.Events o).2.1
            ++ (getLogsLoop client w format conf fuel
                { input with NextToken := res.NextForwardToken } res' s'
                (writeEvents w format conf res'.Events o).1).calls)⟩ := by
  rcases hwe : writeEvents w format conf res'.Events o with ⟨o', calls, r⟩
  rw [hwe] at hw
  simp only at hw
  subst hw
  simp only [getLogsLoop, h, hf, hwe]

/-! ### Failures -/

/-- In a run of the loop a failed call is the last call, and its error is what
the loop returns. -/
theorem getLogsLoop_failure_last (client : Client σ ε) (w : Writer ω ε)
    (format : Int → String) (conf : environments) :
    ∀ (fuel : Nat) (input : GetLogEventsInput) (res : GetLogEventsOutput) (s : σ) (o : ω)
      (pre : List (Call ε)) (c : Call ε) (post : List (Call ε)) (e : ε),
      (getLogsLoop client w format conf fuel input res s o).calls = pre ++ c :: post →
      c.failure = some e →
      post = [] ∧
        (getLogsLoop client w format conf fuel input res s o).outcome = .returned (some e) := by
  intro fuel
  induction fuel with
  | zero =>
    intro input res s o pre c post e h _
    rcases hh : loopHead input res with _ | _ | _
    · rw [getLogsLoop_stop client w format conf 0 input res s o hh] at h
      simp at h
    · rw [getLogsLoop_fault client w format conf 0 input res s o hh] at h
      simp at h
    · rw [getLogsLoop_cut client w format conf input res s o hh] at h
      simp at h
  | succ fuel ih =>
    intro input res s o pre c post e h hc
    rcases hh : loopHead input res with _ | _ | _
    · rw [getLogsLoop_stop client w format conf _ input res s o hh] at h
      simp at h
    · rw [getLogsLoop_fault client w format conf _ input res s o hh] at h
      simp at h
    · rcases hf : client.GetLogEvents s { input with NextToken := res.NextForwardToken }
        with ⟨s', err | res'⟩
      · rw [getLogsLoop_fetch_error client w format conf fuel input res s s' o err hh hf]
          at h ⊢
        cases pre with
        | nil =>
          simp only [List.nil_append, List.cons.injEq] at h
          rw [← h.1] at hc
          simp only [Call.failure] at hc
          exact ⟨h.2.symm, by rw [hc]⟩
        | cons x pre' => simp at h
      · rcases hw : (writeEvents w format conf res'.Events o).2.2 with _ | err
        · rw [getLogsLoop_step client w format conf fuel input res res' s s' o hh hf hw]
            at h ⊢
          have hcalls := writeEvents_ok w format conf res'.Events o hw
          cases pre with
          | nil =>
            simp only [List.nil_append, List.cons.injEq] at h
            rw [← h.1] at hc
            simp [Call.failure] at hc
          | cons x pre' =>
            simp only [List.cons_append, List.cons.injEq] at h
            rcases List.append_eq_append_iff.mp h.2 with ⟨a', _, h2⟩ | ⟨c', h1, h2⟩
            · exact ih _ _ _ _ a' c post e h2 hc
            · cases c' with
              | nil =>
                simp only [List.nil_append] at h2
                exact ih _ _ _ _ [] c post e h2.symm hc
              | cons d c'' =>
                simp only [List.cons_append, List.cons.injEq] at h2
                have hmem : c ∈ (writeEvents w format conf res'.Events o).2.1 := by
                  rw [h1, h2.1]
                  simp
                rw [hcalls] at hmem
                obtain ⟨ev, _, hev⟩ := List.mem_map.mp hmem
                rw [← hev] at hc
                simp [Call.failure] at hc
        · rw [getLogsLoop_write_error client w format conf fuel input res res' s s' o err
            hh hf hw] at h ⊢
          cases pre with
          | nil =>
            simp only [List.nil_append, List.cons.injEq] at h
            rw [← h.1] at hc
            simp [Call.failure] at hc
          | cons x pre' =>
            simp only [List.cons_append, List.cons.injEq] at h
            have := writeEvents_failure_last w format conf res'.Events o pre' c post e h.2 hc
            rw [hw] at this
            simp only [Option.some.injEq] at this
            exact ⟨this.1, by rw [this.2]⟩

/-! ### What is written -/

/-- In a run of the loop without a failed call, the strings written are the
lines of the pages fetched, page after page. -/
theorem getLogsLoop_written (client : Client σ ε) (w : Writer ω ε)
    (format : Int → String) (conf : environments) :
    ∀ (fuel : Nat) (input : GetLogEventsInput) (res : GetLogEventsOutput) (s : σ) (o : ω),
      (∀ c ∈ (getLogsLoop client w format conf fuel input res s o).calls,
        c.failure = none) →
      written (getLogsLoop client w format conf fuel input res s o).calls
        = (pages (getLogsLoop client w format conf fuel input res s o).calls).flatMap
            (fun page => page.Events.map (logLine format conf.PrintTime)) := by
  intro fuel
  induction fuel with
  | zero =>
    intro input res s o _
    rcases hh : loopHead input res with _ | _ | _
    · rw [getLogsLoop_stop client w format conf 0 input res s o hh]; rfl
    · rw [getLogsLoop_fault client w format conf 0 input res s o hh]; rfl
    · rw [getLogsLoop_cut client w format conf input res s o hh]; rfl
  | succ fuel ih =>
    intro input res s o hall
    rcases hh : loopHead input res with _ | _ | _
    · rw [getLogsLoop_stop client w format conf _ input res s o hh]; rfl
    · rw [getLogsLoop_fault client w format conf _ input res s o hh]; rfl
    · rcases hf : client.GetLogEvents s { input with NextToken := res.NextForwardToken }
        with ⟨s', err | res'⟩
      · rw [getLogsLoop_fetch_error client w format conf fuel input res s s' o err hh hf]
          at hall
        have := hall _ (List.mem_singleton.mpr rfl)
        simp [Call.failure] at this
      · rcases hw : (writeEvents w format conf res'.Events o).2.2 with _ | err
        · rw [getLogsLoop_step client w format conf fuel input res res' s s' o hh hf hw]
            at hall ⊢
          have hcalls := writeEvents_ok w format conf res'.Events o hw
          have hrest := ih { input with NextToken := res.NextForwardToken } res' s'
            (writeEvents w format conf res'.Events o).1
            (fun c hc => hall c (List.mem_cons_of_mem _ (List.mem_append_right _ hc)))
          simp only [written, pages, written_append, pages_append, hcalls, written_writes,
            pages_writes, List.nil_append, List.flatMap_cons, hrest]
        · rw [getLogsLoop_write_error client w format conf fuel input res res' s s' o err
            hh hf hw] at hall
          obtain ⟨c, hc, hfail⟩ := writeEvents_err_mem w format conf res'.Events o err hw
          have := hall c (List.mem_cons_of_mem _ hc)
          rw [this] at hfail
          cases hfail

/-! ### The test at the head of the loop -/

theorem loopHead_stop_iff (input : GetLogEventsInput) (res : GetLogEventsOutput) :
    loopHead input res = .stop ↔
      repeats ((input, .ok res) : GetLogEventsInput × Except ε GetLogEventsOutput) = true := by
  unfold loopHead repeats
  rcases hi : input.NextToken with _ | tok
  · simp
  · rcases hr : res.NextForwardToken with _ | fwd
    · simp [hr]
    · by_cases heq : fwd = tok <;> simp [hr, heq]

/-- The zero-valued response has no forward token, so it repeats nothing. -/
theorem not_repeats_zero (input : GetLogEventsInput) :
    ¬ repeats ((input, .ok {}) : GetLogEventsInput × Except ε GetLogEventsOutput) = true := by
  unfold repeats
  rcases hi : input.NextToken with _ | tok <;> simp

theorem singleton_eq_append_cons {α : Type} {x f : α} {pre post : List α}
    (h : [x] = pre ++ f :: post) : pre = [] ∧ f = x ∧ post = [] := by
  cases pre with
  | nil =>
    simp only [List.nil_append, List.cons.injEq] at h
    exact ⟨rfl, h.1.symm, h.2.symm⟩
  | cons y pre' => simp at h

theorem ends_with_cons {α : Type} (P : α → Prop) (x y : α) (l : List α) :
    (∃ pre f, x :: y :: l = pre ++ [f] ∧ P f) ↔ (∃ pre f, y :: l = pre ++ [f] ∧ P f) := by
  constructor
  · rintro ⟨pre, f, h, hp⟩
    cases pre with
    | nil => simp at h
    | cons z pre' =>
      simp only [List.cons_append, List.cons.injEq] at h
      exact ⟨pre', f, h.2, hp⟩
  · rintro ⟨pre, f, h, hp⟩
    exact ⟨x :: pre, f, by rw [h]; rfl, hp⟩

/-! ### When the loop stops -/

/-- With a service and a sink that do not fail: the loop returns `nil` exactly
when the last fetch (the state at the head of the loop counting as one)
repeats its token, and no fetch before the last one does. -/
theorem getLogsLoop_stops_iff (client : Client σ ε) (w : Writer ω ε)
    (format : Int → String) (conf : environments)
    (hc : ∀ s input, ∃ s' res, client.GetLogEvents s input = (s', .ok res))
    (hw : ∀ o str, (w.WriteString o str).2 = none) :
    ∀ (fuel : Nat) (input : GetLogEventsInput) (res : GetLogEventsOutput) (s : σ) (o : ω),
      ((getLogsLoop client w format conf fuel input res s o).outcome = .returned none ↔
          ∃ pre f, (input, Except.ok res)
              :: fetches (getLogsLoop client w format conf fuel input res s o).calls
            = pre ++ [f] ∧ repeats f = true)
        ∧ (∀ pre f post, (input, Except.ok res)
              :: fetches (getLogsLoop client w format conf fuel input res s o).calls
            = pre ++ f :: post → repeats f = true → post = []) := by
  have hidle : ∀ (input : GetLogEventsInput) (res : GetLogEventsOutput) (out : Outcome ε),
      (out = .returned none ↔ loopHead input res = .stop) →
      ((out = .returned none ↔
          ∃ pre f, (input, (Except.ok res : Except ε GetLogEventsOutput))
              :: fetches ([] : List (Call ε)) = pre ++ [f] ∧ repeats f = true)
        ∧ (∀ pre f post, (input, (Except.ok res : Except ε GetLogEventsOutput))
              :: fetches ([] : List (Call ε)) = pre ++ f :: post →
            repeats f = true → post = [])) := by
    intro input res out hout
    constructor
    · rw [hout, loopHead_stop_iff]
      constructor
      · intro h
        exact ⟨[], _, rfl, h⟩
      · rintro ⟨pre, f, h, hp⟩
        obtain ⟨_, hf, _⟩ := singleton_eq_append_cons h
        rw [hf] at hp
        exact hp
    · intro pre f post h _
      exact (singleton_eq_append_cons h).2.2
  intro fuel
  induction fuel with
  | zero =>
    intro input res s o
    rcases hh : loopHead input res with _ | _ | _
    · rw [getLogsLoop_stop client w format conf 0 input res s o hh]
      exact hidle input res _ (by simp [hh])
    · rw [getLogsLoop_fault client w format conf 0 input res s o hh]
      exact hidle input res _ (by simp [hh])
    · rw [getLogsLoop_cut client w format conf input res s o hh]
      exact hidle input res _ (by simp [hh])
  | succ fuel ih =>
    intro input res s o
    rcases hh : loopHead input res with _ | _ | _
    · rw [getLogsLoop_stop client w format conf _ input res s o hh]
      exact hidle input res _ (by simp [hh])
    · rw [getLogsLoop_fault client w format conf _ input res s o hh]
      exact hidle input res _ (by simp [hh])
    · obtain ⟨s', res', hf⟩ := hc s { input with NextToken := res.NextForwardToken }
      have hwn := writeEvents_never_fails w format conf hw res'.Events o
      rw [getLogsLoop_step client w format conf fuel input res res' s s' o hh hf hwn]
      have hcalls := writeEvents_ok w format conf res'.Events o hwn
      obtain ⟨ihA, ihB⟩ := ih { input with NextToken := res.NextForwardToken } res' s'
        (writeEvents w format conf res'.Events o).1
      simp only [fetches, fetches_append, hcalls, fetches_writes, List.nil_append]
      constructor
      · rw [ihA]
        exact (ends_with_cons (fun f => repeats f = true) _ _ _).symm
      · intro pre f post h hp
        cases pre with
        | nil =>
          simp only [List.nil_append, List.cons.injEq] at h
          rw [← h.1] at hp
          rw [← loopHead_stop_iff, hh] at hp
          cases hp
        | cons x pre' =>
          simp only [List.cons_append, List.cons.injEq] at h
          exact ihB pre' f post h.2 hp

/-- A run of the loop that is cut off has made as many fetches as it was
allowed. -/
theorem getLogsLoop_running (client : Client σ ε) (w : Writer ω ε)
    (format : Int → String) (conf : environments) :
    ∀ (fuel : Nat) (input : GetLogEventsInput) (res : GetLogEventsOutput) (s : σ) (o : ω),
      (getLogsLoop client w format conf fuel input res s o).outcome = .running →
      (fetches (getLogsLoop client w format conf fuel input res s o).calls).length = fuel := by
  intro fuel
  induction fuel with
  | zero =>
    intro input res s o _
    rcases hh : loopHead input res with _ | _ | _
    · rw [getLogsLoop_stop client w format conf 0 input res s o hh]; rfl
    · rw [getLogsLoop_fault client w format conf 0 input res s o hh]; rfl
    · rw [getLogsLoop_cut client w format conf input res s o hh]; rfl
  | succ fuel ih =>
    intro input res s o h
    rcases hh : loopHead input res with _ | _ | _
    · rw [getLogsLoop_stop client w format conf _ input res s o hh] at h; cases h
    · rw [getLogsLoop_fault client w format conf _ input res s o hh] at h; cases h
    · rcases hf : client.GetLogEvents s { input with NextToken := res.NextForwardToken }
        with ⟨s', err | res'⟩
      · rw [getLogsLoop_fetch_error client w format conf fuel input res s s' o err hh hf]
          at h
        cases h
      · rcases hw : (writeEvents w format conf res'.Events o).2.2 with _ | err
        · rw [getLogsLoop_step client w format conf fuel input res res' s s' o hh hf hw]
            at h ⊢
          have hcalls := writeEvents_ok w format conf res'.Events o hw
          simp only [fetches, fetches_append, hcalls, fetches_writes, List.nil_append,
            List.length_cons]
          rw [ih _ _ _ _ h]
        · rw [getLogsLoop_write_error client w format conf fuel input res res' s s' o err
            hh hf hw] at h
          cases h

/-- Where every response carries a forward token, the loop entered without a
cursor, or with a response that has a token, does not fault. -/
theorem getLogsLoop_no_fault (client : Client σ ε) (w : Writer ω ε)
    (format : Int → String) (conf : environments)
    (htok : ∀ s input s' res, client.GetLogEvents s input = (s', .ok res) →
      res.NextForwardToken ≠ none) :
    ∀ (fuel : Nat) (input : GetLogEventsInput) (res : GetLogEventsOutput) (s : σ) (o : ω),
      (input.NextToken = none ∨ res.NextForwardToken ≠ none) →
      (getLogsLoop client w format conf fuel input res s o).outcome ≠ .fault := by
  have hhead : ∀ (input : GetLogEventsInput) (res : GetLogEventsOutput),
      (input.NextToken = none ∨ res.NextForwardToken ≠ none) →
      loopHead input res ≠ .fault := by
    intro input res h hf
    unfold loopHead at hf
    rcases hi : input.NextToken with _ | tok
    · rw [hi] at hf; cases hf
    · rcases hr : res.NextForwardToken with _ | fwd
      · rcases h with h | h
        · rw [hi] at h; cases h
        · exact h hr
      · rw [hi, hr] at hf
        by_cases heq : fwd = tok <;> simp [heq] at hf
  intro fuel
  induction fuel with
  | zero =>
    intro input res s o h
    rcases hh : loopHead input res with _ | _ | _
    · rw [getLogsLoop_stop client w format conf 0 input res s o hh]; simp
    · exact absurd hh (hhead input res h)
    · rw [getLogsLoop_cut client w format conf input res s o hh]; simp
  | succ fuel ih =>
    intro input res s o h
    rcases hh : loopHead input res with _ | _ | _
    · rw [getLogsLoop_stop client w format conf _ input res s o hh]; simp
    · exact absurd hh (hhead input res h)
    · rcases hf : client.GetLogEvents s { input with NextToken := res.NextForwardToken }
        with ⟨s', err | res'⟩
      · rw [getLogsLoop_fetch_error client w format conf fuel input res s s' o err hh hf]
        simp
      · rcases hw : (writeEvents w format conf res'.Events o).2.2 with _ | err
        · rw [getLogsLoop_step client w format conf fuel input res res' s s' o hh hf hw]
          exact ih _ _ _ _ (Or.inr (htok _ _ _ _ hf))
        · rw [getLogsLoop_write_error client w format conf fuel input res res' s s' o err
            hh hf hw]
          simp

/-- With a service and a sink that do not fail, the loop returns no error. -/
theorem getLogsLoop_no_error (client : Client σ ε) (w : Writer ω ε)
    (format : Int → String) (conf : environments)
    (hc : ∀ s input, ∃ s' res, client.GetLogEvents s input = (s', .ok res))
    (hw : ∀ o str, (w.WriteString o str).2 = none) :
    ∀ (fuel : Nat) (input : GetLogEventsInput) (res : GetLogEventsOutput) (s : σ) (o : ω)
      (e : ε),
      (getLogsLoop client w format conf fuel input res s o).outcome ≠ .returned (some e) := by
  intro fuel
  induction fuel with
  | zero =>
    intro input res s o e
    rcases hh : loopHead input res with _ | _ | _
    · rw [getLogsLoop_stop client w format conf 0 input res s o hh]; simp
    · rw [getLogsLoop_fault client w format conf 0 input res s o hh]; simp
    · rw [getLogsLoop_cut client w format conf input res s o hh]; simp
  | succ fuel ih =>
    intro input res s o e
    rcases hh : loopHead input res with _ | _ | _
    · rw [getLogsLoop_stop client w format conf _ input res s o hh]; simp
    · rw [getLogsLoop_fault client w format conf _ input res s o hh]; simp
    · obtain ⟨s', res', hf⟩ := hc s { input with NextToken := res.NextForwardToken }
      have hwn := writeEvents_never_fails w format conf hw res'.Events o
      rw [getLogsLoop_step client w format conf fuel input res res' s s' o hh hf hwn]
      exact ih _ _ _ _ e

/-- A run that has ended within its bound is the same run under any larger
bound. -/
theorem getLogsLoop_more_fuel (client : Client σ ε) (w : Writer ω ε)
    (format : Int → String) (conf : environments) :
    ∀ (fuel k : Nat) (input : GetLogEventsInput) (res : GetLogEventsOutput) (s : σ) (o : ω),
      (getLogsLoop client w format conf fuel input res s o).outcome ≠ .running →
      getLogsLoop client w format conf (fuel + k) input res s o
        = getLogsLoop client w format conf fuel input res s o := by
  intro fuel
  induction fuel with
  | zero =>
    intro k input res s o h
    rcases hh : loopHead input res with _ | _ | _
    · rw [getLogsLoop_stop client w format conf _ input res s o hh,
        getLogsLoop_stop client w format conf _ input res s o hh]
    · rw [getLogsLoop_fault client w format conf _ input res s o hh,
        getLogsLoop_fault client w format conf _ input res s o hh]
    · rw [getLogsLoop_cut client w format conf input res s o hh] at h
      exact absurd rfl h
  | succ fuel ih =>
    intro k input res s o h
    have hk : fuel + 1 + k = fuel + k + 1 := by omega
    rw [hk]
    rcases hh : loopHead input res with _ | _ | _
    · rw [getLogsLoop_stop client w format conf _ input res s o hh,
        getLogsLoop_stop client w format conf _ input res s o hh]
    · rw [getLogsLoop_fault client w format conf _ input res s o hh,
        getLogsLoop_fault client w format conf _ input res s o hh]
    · rcases hf : client.GetLogEvents s { input with NextToken := res.NextForwardToken }
        with ⟨s', err | res'⟩
      · rw [getLogsLoop_fetch_error client w format conf _ input res s s' o err hh hf,
          getLogsLoop_fetch_error client w format conf _ input res s s' o err hh hf]
      · rcases hw : (writeEvents w format conf res'.Events o).2.2 with _ | err
        · rw [getLogsLoop_step client w format conf fuel input res res' s s' o hh hf hw]
            at h ⊢
          rw [getLogsLoop_step client w format conf (fuel + k) input res res' s s' o
            hh hf hw]
          rw [ih k _ _ _ _ h]
        · rw [getLogsLoop_write_error client w format conf _ input res res' s s' o err
            hh hf hw,
            getLogsLoop_write_error client w format conf _ input res res' s s' o err
            hh hf hw]

/-! ### The claims about getLogs -/

/-- C1: with a service and a sink that never fail, `getLogs` returns `nil`
exactly when its last fetch returned the token its request submitted; no
fetch before the last one did so (it stops at the first such fetch); it never
returns an error; a run that is still going has used up all the fetches it was
allowed; and where the cursor starts unset and every response carries a
forward token, it does not fault. -/
theorem getLogs_stops_iff_token_repeats (client : Client σ ε) (w : Writer ω ε)
    (format : Int → String) (conf : environments)
    (hc : ∀ s input, ∃ s' res, client.GetLogEvents s input = (s', .ok res))
    (hw : ∀ o str, (w.WriteString o str).2 = none)
    (fuel : Nat) (input : GetLogEventsInput) (s : σ) (o : ω) :
    ((getLogs client w format fuel input conf s o).outcome = .returned none ↔
        ∃ pre f, fetches (getLogs client w format fuel input conf s o).calls = pre ++ [f]
          ∧ repeats f = true)
      ∧ (∀ pre f post,
          fetches (getLogs client w format fuel input conf s o).calls = pre ++ f :: post →
          repeats f = true → post = [])
      ∧ (∀ e, (getLogs client w format fuel input conf s o).outcome ≠ .returned (some e))
      ∧ ((getLogs client w format fuel input conf s o).outcome = .running →
          (fetches (getLogs client w format fuel input conf s o).calls).length = fuel)
      ∧ (input.NextToken = none →
          (∀ s input s' res, client.GetLogEvents s input = (s', .ok res) →
            res.NextForwardToken ≠ none) →
          (getLogs client w format fuel input conf s o).outcome ≠ .fault) := by
  obtain ⟨hA, hB⟩ := getLogsLoop_stops_iff client w format conf hc hw fuel input {} s o
  refine ⟨?_, ?_, ?_, ?_, ?_⟩
  · unfold getLogs
    rw [hA]
    rcases hfs : fetches (getLogsLoop client w format conf fuel input {} s o).calls
      with _ | ⟨y, l⟩
    · constructor
      · rintro ⟨pre, f, h, hp⟩
        obtain ⟨_, hf, _⟩ := singleton_eq_append_cons h
        rw [hf] at hp
        exact absurd hp (not_repeats_zero input)
      · rintro ⟨pre, f, h, _⟩
        simp at h
    · exact ends_with_cons (fun f => repeats f = true) _ _ _
  · intro pre f post h hp
    unfold getLogs at h
    exact hB ((input, .ok {}) :: pre) f post (by rw [h]; rfl) hp
  · exact getLogsLoop_no_error client w format conf hc hw fuel input {} s o
  · exact getLogsLoop_running client w format conf fuel input {} s o
  · intro hin htok
    exact getLogsLoop_no_fault client w format conf htok fuel input {} s o (Or.inl hin)

/-- C1 on a service that hands out two pages with the tokens `t1` and `t2`
and then echoes the token it is sent: the third fetch repeats its token and
`getLogs` returns `nil` after it. -/
theorem getLogs_stops_iff_token_repeats_witness :
    (∀ s input, ∃ s' res, scriptedClient.GetLogEvents s input = (s', .ok res))
      ∧ (∀ o str, (bytesBuffer.WriteString o str).2 = none)
      ∧ fetches (getLogs scriptedClient bytesBuffer rfc3339UTC 5 {} {}
          [{ Events := [⟨1, "a"⟩], NextForwardToken := some "t1" },
           { Events := [⟨2, "b"⟩], NextForwardToken := some "t2" }] "").calls
        = [ ({}, .ok { Events := [⟨1, "a"⟩], NextForwardToken := some "t1" }),
            ({ NextToken := some "t1" },
              .ok { Events := [⟨2, "b"⟩], NextForwardToken := some "t2" }),
            ({ NextToken := some "t2" },
              .ok { Events := [], NextForwardToken := some "t2" }) ]
      ∧ (getLogs scriptedClient bytesBuffer rfc3339UTC 5 {} {}
          [{ Events := [⟨1, "a"⟩], NextForwardToken := some "t1" },
           { Events := [⟨2, "b"⟩], NextForwardToken := some "t2" }] "").outcome
        = .returned none :=
  have hc : ∀ (s : List GetLogEventsOutput) (input : GetLogEventsInput),
      ∃ s' res, scriptedClient.GetLogEvents s input = (s', .ok res) := fun s _ =>
    match s with
    | [] => ⟨[], _, rfl⟩
    | page :: rest => ⟨rest, page, rfl⟩
  have hw : ∀ (o : String) (str : String), (bytesBuffer.WriteString o str).2 = none :=
    fun _ _ => rfl
  ⟨hc, hw, rfl,
   (getLogs_stops_iff_token_repeats scriptedClient bytesBuffer rfc3339UTC {} hc hw 5 {}
      [{ Events := [⟨1, "a"⟩], NextForwardToken := some "t1" },
       { Events := [⟨2, "b"⟩], NextForwardToken := some "t2" }] "").1.mpr
      ⟨[ ({}, .ok { Events := [⟨1, "a"⟩], NextForwardToken := some "t1" }),
         ({ NextToken := some "t1" },
           .ok { Events := [⟨2, "b"⟩], NextForwardToken := some "t2" }) ],
       ({ NextToken := some "t2" }, .ok { Events := [], NextForwardToken := some "t2" }),
       rfl, rfl⟩⟩

/-- C2, as the code has it: where every response carries the same forward
token `T` and the sink never fails, `getLogs` started without a cursor returns
`nil` after exactly two fetches, the first without a cursor and the second with
the cursor `T`; the sink receives the lines of the first page, once each and in
order, and after them the lines of the second page, and nothing else; so where
the second page has no events, each event of the first page is written exactly
once. -/
theorem getLogs_same_token (client : Client σ ε) (w : Writer ω ε)
    (format : Int → String) (conf : environments) (T : String)
    (hT : ∀ s input, ∃ s' res,
      client.GetLogEvents s input = (s', .ok res) ∧ res.NextForwardToken = some T)
    (hw : ∀ o str, (w.WriteString o str).2 = none)
    (group stream : Option String) (s : σ) (o : ω) :
    ∃ s₁ p₁ s₂ p₂,
      client.GetLogEvents s
          { LogGroupName := group, LogStreamName := stream, NextToken := none }
        = (s₁, .ok p₁)
      ∧ client.GetLogEvents s₁
          { LogGroupName := group, LogStreamName := stream, NextToken := some T }
        = (s₂, .ok p₂)
      ∧ ∀ fuel, 2 ≤ fuel →
        getLogs client w format fuel
            { LogGroupName := group, LogStreamName := stream, NextToken := none } conf s o
          = ⟨.returned none,
              .fetch { LogGroupName := group, LogStreamName := stream, NextToken := none }
                  (.ok p₁)
                :: (p₁.Events.map (fun e => Call.write (logLine format conf.PrintTime e) none)
                  ++ .fetch
                      { LogGroupName := group, LogStreamName := stream, NextToken := some T }
                      (.ok p₂)
                    :: p₂.Events.map
                        (fun e => Call.write (logLine format conf.PrintTime e) none))⟩
        ∧ written (getLogs client w format fuel
            { LogGroupName := group, LogStreamName := stream, NextToken := none } conf s o).calls
          = p₁.Events.map (logLine format conf.PrintTime)
            ++ p₂.Events.map (logLine format conf.PrintTime)
        ∧ (p₂.Events = [] →
          written (getLogs client w format fuel
              { LogGroupName := group, LogStreamName := stream, NextToken := none }
              conf s o).calls
            = p₁.Events.map (logLine format conf.PrintTime)) := by
  obtain ⟨s₁, p₁, h₁, t₁⟩ := hT s
    { LogGroupName := group, LogStreamName := stream, NextToken := none }
  obtain ⟨s₂, p₂, h₂, t₂⟩ := hT s₁
    { LogGroupName := group, LogStreamName := stream, NextToken := some T }
  refine ⟨s₁, p₁, s₂, p₂, h₁, h₂, ?_⟩
  intro fuel hfuel
  obtain ⟨n, rfl⟩ : ∃ n, fuel = n + 1 + 1 := ⟨fuel - 2, by omega⟩
  have hw₁ := writeEvents_never_fails w format conf hw p₁.Events o
  have hw₂ := writeEvents_never_fails w format conf hw p₂.Events
    (writeEvents w format conf p₁.Events o).1
  have h₂' : client.GetLogEvents s₁
      { ({ LogGroupName := group, LogStreamName := stream, NextToken := none } :
          GetLogEventsInput) with NextToken := p₁.NextForwardToken } = (s₂, .ok p₂) := by
    rw [t₁]; exact h₂
  have hstop : loopHead
      { ({ LogGroupName := group, LogStreamName := stream, NextToken := none } :
          GetLogEventsInput) with NextToken := p₁.NextForwardToken } p₂ = .stop := by
    simp [loopHead, t₁, t₂]
  have hrun : getLogs client w format (n + 1 + 1)
      { LogGroupName := group, LogStreamName := stream, NextToken := none } conf s o
        = ⟨.returned none,
            .fetch { LogGroupName := group, LogStreamName := stream, NextToken := none }
                (.ok p₁)
              :: (p₁.Events.map (fun e => Call.write (logLine format conf.PrintTime e) none)
                ++ .fetch
                    { LogGroupName := group, LogStreamName := stream, NextToken := some T }
                    (.ok p₂)
                  :: p₂.Events.map
                      (fun e => Call.write (logLine format conf.PrintTime e) none))⟩ := by
    unfold getLogs
    rw [getLogsLoop_step client w format conf (n + 1)
      { LogGroupName := group, LogStreamName := stream, NextToken := none } {} p₁ s s₁ o
      rfl h₁ hw₁]
    rw [getLogsLoop_step client w format conf n
      { LogGroupName := group, LogStreamName := stream, NextToken := none } p₁ p₂ s₁ s₂ _
      rfl h₂' hw₂]
    rw [getLogsLoop_stop client w format conf n _ p₂ s₂ _ hstop]
    rw [writeEvents_ok w format conf p₁.Events o hw₁,
      writeEvents_ok w format conf p₂.Events _ hw₂]
    simp [t₁]
  have hwritten : written (getLogs client w format (n + 1 + 1)
      { LogGroupName := group, LogStreamName := stream, NextToken := none } conf s o).calls
        = p₁.Events.map (logLine format conf.PrintTime)
          ++ p₂.Events.map (logLine format conf.PrintTime) := by
    rw [hrun]
    simp only [written, written_append, written_writes]
  refine ⟨hrun, hwritten, ?_⟩
  intro hempty
  rw [hwritten, hempty]
  simp

/-- C2 fails as stated, at two inputs.  A service that answers every request
with the events `x`, `y` and the token `T` is one whose responses all carry the
same forward token; `getLogs` makes its two fetches and returns `nil`, and the
line of `x`, an event of the first page, is written twice.  And with the mock
of `TestGetLogs` and a sink that fails on its first write, `getLogs` makes one
fetch and returns the error of the write, not `nil`. -/
theorem getLogs_same_token_first_page_rewritten :
    (∀ s input, ∃ s' res,
        (resendingClient { Events := [⟨1, "x"⟩, ⟨2, "y"⟩], NextForwardToken := some "T" }
          ).GetLogEvents s input = (s', .ok res)
          ∧ res.NextForwardToken = some "T")
      ∧ getLogs
            (resendingClient { Events := [⟨1, "x"⟩, ⟨2, "y"⟩], NextForwardToken := some "T" })
            bytesBuffer rfc3339UTC 2 {} {} () ""
          = ⟨.returned none,
              [ .fetch {}
                  (.ok { Events := [⟨1, "x"⟩, ⟨2, "y"⟩], NextForwardToken := some "T" }),
                .write "x\n" none,
                .write "y\n" none,
                .fetch { NextToken := some "T" }
                  (.ok { Events := [⟨1, "x"⟩, ⟨2, "y"⟩], NextForwardToken := some "T" }),
                .write "x\n" none,
                .write "y\n" none ]⟩
      ∧ (written (getLogs
            (resendingClient { Events := [⟨1, "x"⟩, ⟨2, "y"⟩], NextForwardToken := some "T" })
            bytesBuffer rfc3339UTC 2 {} {} () "").calls).count "x\n" = 2
      ∧ getLogs (mockedCWL.client ⟨testResp, none⟩) limitedWriter rfc3339UTC 5 {} {} () 0
          = ⟨.returned (some "short write"),
              [ .fetch {} (.ok testResp),
                .write "sample message log........\n" (some "short write") ]⟩ :=
  ⟨fun s _ => ⟨s, _, rfl, rfl⟩, rfl, by decide, rfl⟩

/-- C2 as amended, on the mock and the first response of `TestGetLogs`: two
fetches, the second page empty, the two lines of the first page written once
each, then `nil`. -/
theorem getLogs_same_token_witness :
    (∀ s input, ∃ s' res,
        (mockedCWL.client ⟨testResp, none⟩).GetLogEvents s input = (s', .ok res)
          ∧ res.NextForwardToken = some "hogehoge")
      ∧ (∀ o str, (bytesBuffer.WriteString o str).2 = none)
      ∧ (∃ s₁ p₁ s₂ p₂,
          (mockedCWL.client ⟨testResp, none⟩).GetLogEvents ()
              { LogGroupName := some "", LogStreamName := some "", NextToken := none }
            = (s₁, .ok p₁)
          ∧ (mockedCWL.client ⟨testResp, none⟩).GetLogEvents s₁
              { LogGroupName := some "", LogStreamName := some "",
                NextToken := some "hogehoge" }
            = (s₂, .ok p₂)
          ∧ ∀ fuel, 2 ≤ fuel →
            getLogs (mockedCWL.client ⟨testResp, none⟩) bytesBuffer rfc3339UTC fuel
                { LogGroupName := some "", LogStreamName := some "", NextToken := none }
                { PrintTime := true } () ""
              = ⟨.returned none,
                  .fetch
                      { LogGroupName := some "", LogStreamName := some "",
                        NextToken := none } (.ok p₁)
                    :: (p₁.Events.map
                          (fun e => Call.write (logLine rfc3339UTC true e) none)
                      ++ .fetch
                          { LogGroupName := some "", LogStreamName := some "",
                            NextToken := some "hogehoge" } (.ok p₂)
                        :: p₂.Events.map
                            (fun e => Call.write (logLine rfc3339UTC true e) none))⟩
            ∧ written (getLogs (mockedCWL.client ⟨testResp, none⟩) bytesBuffer rfc3339UTC
                fuel
                { LogGroupName := some "", LogStreamName := some "", NextToken := none }
                { PrintTime := true } () "").calls
              = p₁.Events.map (logLine rfc3339UTC true)
                ++ p₂.Events.map (logLine rfc3339UTC true)
            ∧ (p₂.Events = [] →
              written (getLogs (mockedCWL.client ⟨testResp, none⟩) bytesBuffer rfc3339UTC
                  fuel
                  { LogGroupName := some "", LogStreamName := some "", NextToken := none }
                  { PrintTime := true } () "").calls
                = p₁.Events.map (logLine rfc3339UTC true)))
      ∧ getLogs (mockedCWL.client ⟨testResp, none⟩) bytesBuffer rfc3339UTC 2
            { LogGroupName := some "", LogStreamName := some "", NextToken := none }
            { PrintTime := true } () ""
          = ⟨.returned none,
              [ .fetch
                  { LogGroupName := some "", LogStreamName := some "", NextToken := none }
                  (.ok testResp),
                .write "2018-02-25T11:08:12Z sample message log........\n" none,
                .write "2018-02-25T11:08:13Z sample message log2........\n" none,
                .fetch
                  { LogGroupName := some "", LogStreamName := some "",
                    NextToken := some "hogehoge" }
                  (.ok { Events := [], NextForwardToken := some "hogehoge" }) ]⟩ :=
  have hT : ∀ (s : Unit) (input : GetLogEventsInput), ∃ s' res,
      (mockedCWL.client ⟨testResp, none⟩).GetLogEvents s input = (s', .ok res)
        ∧ res.NextForwardToken = some "hogehoge" := fun s input =>
    ⟨s, if input.NextToken ≠ none then { testResp with Events := [] } else testResp, rfl,
      by split <;> rfl⟩
  have hw : ∀ (o : String) (str : String), (bytesBuffer.WriteString o str).2 = none :=
    fun _ _ => rfl
  ⟨hT, hw,
   getLogs_same_token (mockedCWL.client ⟨testResp, none⟩) bytesBuffer rfc3339UTC
     { PrintTime := true } "hogehoge" hT hw (some "") (some "") () "",
   rfl⟩

/-- C3: in a run of `getLogs` in which no fetch and no write fails, the strings
written are, in this order, one line for each event of each fetched page, pages
in the order fetched and events in the order delivered, and nothing else; a
line is the rendered timestamp and one space when `PrintTime` is set, then the
message and a newline. -/
theorem getLogs_written_lines (client : Client σ ε) (w : Writer ω ε)
    (format : Int → String) (conf : environments) (fuel : Nat)
    (input : GetLogEventsInput) (s : σ) (o : ω)
    (hok : ∀ c ∈ (getLogs client w format fuel input conf s o).calls, c.failure = none) :
    written (getLogs client w format fuel input conf s o).calls
        = (pages (getLogs client w format fuel input conf s o).calls).flatMap
            (fun page => page.Events.map (logLine format conf.PrintTime))
      ∧ String.join (written (getLogs client w format fuel input conf s o).calls)
        = String.join
            ((pages (getLogs client w format fuel input conf s o).calls).flatMap
              (fun page => page.Events.map (logLine format conf.PrintTime)))
      ∧ (∀ event, logLine format true event
          = format event.Timestamp ++ " " ++ event.Message ++ "\n")
      ∧ (∀ event, logLine format false event = event.Message ++ "\n") := by
  have h := getLogsLoop_written client w format conf fuel input {} s o hok
  refine ⟨h, ?_, fun _ => rfl, ?_⟩
  · unfold getLogs
    rw [h]
  · intro event
    simp [logLine]

/-- C3 on the mock and the first response of `TestGetLogs`, with `PrintTime`
set: the two lines of the first page (the second page is empty). -/
theorem getLogs_written_lines_witness :
    (∀ c ∈ (getLogs (mockedCWL.client ⟨testResp, none⟩) bytesBuffer rfc3339UTC 5 {}
        { PrintTime := true } () "").calls, c.failure = none)
      ∧ pages (getLogs (mockedCWL.client ⟨testResp, none⟩) bytesBuffer rfc3339UTC 5 {}
          { PrintTime := true } () "").calls
        = [testResp, { Events := [], NextForwardToken := some "hogehoge" }]
      ∧ written (getLogs (mockedCWL.client ⟨testResp, none⟩) bytesBuffer rfc3339UTC 5 {}
          { PrintTime := true } () "").calls
        = [ "2018-02-25T11:08:12Z sample message log........\n",
            "2018-02-25T11:08:13Z sample message log2........\n" ] :=
  have hcalls : (getLogs (mockedCWL.client ⟨testResp, none⟩) bytesBuffer rfc3339UTC 5 {}
      { PrintTime := true } () "").calls
        = [ .fetch {} (.ok testResp),
            .write "2018-02-25T11:08:12Z sample message log........\n" none,
            .write "2018-02-25T11:08:13Z sample message log2........\n" none,
            .fetch { NextToken := some "hogehoge" }
              (.ok { Events := [], NextForwardToken := some "hogehoge" }) ] := rfl
  have hok : ∀ c ∈ (getLogs (mockedCWL.client ⟨testResp, none⟩) bytesBuffer rfc3339UTC 5 {}
      { PrintTime := true } () "").calls, c.failure = none := by
    intro c hc
    rw [hcalls] at hc
    simp only [List.mem_cons, List.mem_singleton, List.not_mem_nil, or_false] at hc
    rcases hc with rfl | rfl | rfl | rfl <;> rfl
  ⟨hok, rfl,
   (getLogs_written_lines (mockedCWL.client ⟨testResp, none⟩) bytesBuffer rfc3339UTC
      { PrintTime := true } 5 {} () "" hok).1.trans rfl⟩

/-- C4: `getLogs` stops at the first failure.  A call that fails, fetch or
write, is the last call of the run, no call before it failed, and its error is
what `getLogs` returns.  When the first fetch fails, the run is that one fetch:
its error is returned and nothing is written. -/
theorem getLogs_stops_at_first_failure (client : Client σ ε) (w : Writer ω ε)
    (format : Int → String) (conf : environments) (fuel : Nat)
    (input : GetLogEventsInput) (s : σ) (o : ω) :
    (∀ pre c post e,
        (getLogs client w format fuel input conf s o).calls = pre ++ c :: post →
        c.failure = some e →
        post = []
          ∧ (getLogs client w format fuel input conf s o).outcome = .returned (some e)
          ∧ ∀ x ∈ pre, x.failure = none)
      ∧ (∀ s' e, input.NextToken = none →
          client.GetLogEvents s input = (s', .error e) →
          ∀ n, getLogs client w format (n + 1) input conf s o
            = ⟨.returned (some e), [.fetch input (.error e)]⟩) := by
  constructor
  · intro pre c post e h hc
    obtain ⟨hpost, hout⟩ :=
      getLogsLoop_failure_last client w format conf fuel input {} s o pre c post e h hc
    refine ⟨hpost, hout, ?_⟩
    intro x hx
    rcases hfx : x.failure with _ | e'
    · rfl
    · obtain ⟨p₁, p₂, hp⟩ := List.append_of_mem hx
      have h' : (getLogsLoop client w format conf fuel input {} s o).calls
          = p₁ ++ x :: (p₂ ++ c :: post) := by
        unfold getLogs at h
        rw [h, hp]
        simp
      have := (getLogsLoop_failure_last client w format conf fuel input {} s o
        p₁ x (p₂ ++ c :: post) e' h' hfx).1
      simp at this
  · intro s' e hin hf n
    have hinput : { input with NextToken := ({} : GetLogEventsOutput).NextForwardToken }
        = input := by
      cases input
      simp only at hin
      subst hin
      rfl
    have hgo : loopHead input {} = .go := by
      simp [loopHead, hin]
    have hf' : client.GetLogEvents s
        { input with NextToken := ({} : GetLogEventsOutput).NextForwardToken }
          = (s', .error e) := by
      rw [hinput]; exact hf
    unfold getLogs
    rw [getLogsLoop_fetch_error client w format conf n input {} s s' o e hgo hf', hinput]

/-- C4 on the second case of `TestGetLogs` (the fetch fails: one call, nothing
written) and on a sink that takes one write and fails on the next (the run
ends with the failed write). -/
theorem getLogs_stops_at_first_failure_witness :
    getLogs (mockedCWL.client ⟨{}, some "test error"⟩) bytesBuffer rfc3339UTC 5 {} {} () ""
        = ⟨.returned (some "test error"), [.fetch {} (.error "test error")]⟩
      ∧ written (getLogs (mockedCWL.client ⟨{}, some "test error"⟩) bytesBuffer
          rfc3339UTC 5 {} {} () "").calls = []
      ∧ (getLogs (mockedCWL.client ⟨testResp, none⟩) limitedWriter rfc3339UTC 5 {} {}
          () 1).calls
        = [ .fetch {} (.ok testResp),
            .write "sample message log........\n" none ]
          ++ .write "sample message log2........\n" (some "short write") :: []
      ∧ (getLogs (mockedCWL.client ⟨testResp, none⟩) limitedWriter rfc3339UTC 5 {} {}
          () 1).outcome = .returned (some "short write") :=
  ⟨(getLogs_stops_at_first_failure (mockedCWL.client ⟨{}, some "test error"⟩) bytesBuffer
      rfc3339UTC {} 5 {} () "").2 () "test error" rfl rfl 4,
   rfl, rfl,
   ((getLogs_stops_at_first_failure (mockedCWL.client ⟨testResp, none⟩) limitedWriter
      rfc3339UTC {} 5 {} () 1).1
      [ .fetch {} (.ok testResp), .write "sample message log........\n" none ]
      (.write "sample message log2........\n" (some "short write")) [] "short write"
      rfl rfl).2.1⟩

/-- C9 fails on the code: started with a cursor already set, `getLogs` faults
at the head of the loop (main.go 202 dereferences the forward token of the
zero-valued response) before any fetch or write, whatever the service, the
sink and the cursor are. -/
theorem getLogs_preset_cursor_faults (client : Client σ ε) (w : Writer ω ε)
    (format : Int → String) (conf : environments) (fuel : Nat)
    (group stream : Option String) (tok : String) (s : σ) (o : ω) :
    getLogs client w format fuel
        { LogGroupName := group, LogStreamName := stream, NextToken := some tok } conf s o
      = ⟨.fault, []⟩ :=
  getLogsLoop_fault client w format conf fuel _ {} s o rfl

/-- Started without a cursor, `getLogs` makes its first call without a fault:
a fetch with the request as it was given. -/
theorem getLogs_unset_cursor_first_fetch (client : Client σ ε) (w : Writer ω ε)
    (format : Int → String) (conf : environments) (n : Nat)
    (group stream : Option String) (s : σ) (o : ω) :
    ∃ rest,
      (getLogs client w format (n + 1)
          { LogGroupName := group, LogStreamName := stream, NextToken := none } conf s o).calls
        = .fetch { LogGroupName := group, LogStreamName := stream, NextToken := none }
            (client.GetLogEvents s
              { LogGroupName := group, LogStreamName := stream, NextToken := none }).2
          :: rest := by
  unfold getLogs
  rcases hf : client.GetLogEvents s
      { LogGroupName := group, LogStreamName := stream, NextToken := none }
    with ⟨s', err | res'⟩
  · rw [getLogsLoop_fetch_error client w format conf n
      { LogGroupName := group, LogStreamName := stream, NextToken := none } {} s s' o err
      rfl hf]
    exact ⟨[], rfl⟩
  · rcases hw : (writeEvents w format conf res'.Events o).2.2 with _ | err
    · rw [getLogsLoop_step client w format conf n
        { LogGroupName := group, LogStreamName := stream, NextToken := none } {} res' s s' o
        rfl hf hw]
      exact ⟨_, rfl⟩
    · rw [getLogsLoop_write_error client w format conf n
        { LogGroupName := group, LogStreamName := stream, NextToken := none } {} res' s s' o
        err rfl hf hw]
      exact ⟨_, rfl⟩

/-- C9 at the request of `TestGetLogs` with its cursor set to `hogehoge`:
the run is a fault and no call. -/
theorem getLogs_preset_cursor_faults_witness :
    getLogs (mockedCWL.client ⟨testResp, none⟩) bytesBuffer rfc3339UTC 5
        { LogGroupName := some "", LogStreamName := some "", NextToken := some "hogehoge" }
        { PrintTime := true } () ""
      = ⟨.fault, []⟩ :=
  getLogs_preset_cursor_faults (mockedCWL.client ⟨testResp, none⟩) bytesBuffer rfc3339UTC
    { PrintTime := true } 5 (some "") (some "") "hogehoge" () ""

end LogFacts

end Getawslog
